import Mathlib

/-!
# CmdHub core — shallow embedding and verification

This development embeds the core data structures and operations of the
CmdHub session/instance multiplexing engine (Rust sources under
`src/core/src/instance.rs`, `src/core/src/session/mod.rs`,
`src/cli/src/main.rs`) as executable Lean definitions, and proves the
testable properties stated in the specification against them.

Modelling conventions:
* Bytes are `Nat` (the Rust code uses `u8`; all byte operations here are
  comparisons and copies, so no modular arithmetic arises).
* Strings produced by UTF-8 decoding are lists of Unicode code points
  (`List Nat`); `strCps` converts a Lean string literal to that form.
* OS resources (pseudo-terminal master handles, PTY writers) are opaque
  type parameters `M`, `W`.
* Hash maps and filesystem directories are association lists with unique
  keys; wall-clock reads (`now_epoch()`) become an explicit `now`
  parameter; the results of fallible OS calls inside `spawn_raw` are
  injected as `Except` parameters.
-/

/-! ## OutputRingBuffer (`RingBuffer`, instance.rs 36-68) -/

/-- `RingBuffer`: a `VecDeque<u8>` plus its configured capacity
(instance.rs 36-39). The deque is modelled front-first. -/
structure RingBuffer where
  buf : List Nat
  cap : Nat
  deriving Repr, DecidableEq

/-- `RingBuffer::new(cap)` (instance.rs 42-47). -/
def RingBuffer.new (cap : Nat) : RingBuffer :=
  { buf := [], cap := cap }

/-- The `while self.buf.len() + data.len() > self.cap { self.buf.pop_front(); }`
loop of `RingBuffer::push` (instance.rs 59-61): pop from the front until the
incoming chunk fits. -/
def evictFront (buf : List Nat) (need cap : Nat) : List Nat :=
  if buf.length + need > cap then
    match buf with
    | [] => []
    | _ :: rest => evictFront rest need cap
  else buf

/-- `RingBuffer::push(data)` (instance.rs 49-63): empty chunks are ignored;
a chunk at least as long as the capacity replaces the whole contents with
its trailing `cap` bytes; otherwise oldest bytes are evicted from the front
until the chunk fits and the chunk is appended. -/
def RingBuffer.push (rb : RingBuffer) (data : List Nat) : RingBuffer :=
  if data.isEmpty then rb
  else if rb.cap ≤ data.length then
    { rb with buf := data.drop (data.length - rb.cap) }
  else
    { rb with buf := evictFront rb.buf data.length rb.cap ++ data }

/-- `RingBuffer::snapshot()` (instance.rs 65-67): ordered copy, oldest first. -/
def RingBuffer.snapshot (rb : RingBuffer) : List Nat :=
  rb.buf

/-! ## ShellStateParser (`OscParser`, instance.rs 315-382) -/

/-- `OscState` (instance.rs 322-328). -/
inductive OscState where
  | Idle
  | Esc
  | Osc
  | OscCode
  | Collect
  deriving Repr, DecidableEq

/-- `OSC_TITLE_LIMIT` (instance.rs 315). -/
def OSC_TITLE_LIMIT : Nat := 2048

/-- `OscParser` (instance.rs 317-320): current state plus the payload
accumulator. -/
structure OscParser where
  state : OscState
  buf : List Nat
  deriving Repr, DecidableEq

/-- `OscParser::new()` (instance.rs 331-336). -/
def OscParser.new : OscParser :=
  { state := OscState.Idle, buf := [] }

/-- One iteration of the byte loop in `OscParser::collect_titles`
(instance.rs 339-379). Returns the updated parser and, when a BEL
terminates a payload in `Collect`, the raw payload bytes.
Byte constants: `0x1b` = ESC, `93` = the `]` character, `48`/`50` = the
`0`/`2` characters, `59` = `;`, `7` = BEL. -/
def oscStepRaw (p : OscParser) (b : Nat) : OscParser × Option (List Nat) :=
  match p.state with
  | OscState.Idle =>
    if b = 27 then ({ p with state := OscState.Esc }, none) else (p, none)
  | OscState.Esc =>
    if b = 93 then ({ p with state := OscState.Osc }, none)
    else if b ≠ 27 then ({ p with state := OscState.Idle }, none)
    else (p, none)
  | OscState.Osc =>
    if b = 48 ∨ b = 50 then ({ p with state := OscState.OscCode }, none)
    else ({ p with state := OscState.Idle }, none)
  | OscState.OscCode =>
    if b = 59 then ({ state := OscState.Collect, buf := [] }, none)
    else ({ p with state := OscState.Idle }, none)
  | OscState.Collect =>
    if b = 7 then ({ state := OscState.Idle, buf := [] }, some p.buf)
    else if p.buf.length < OSC_TITLE_LIMIT then ({ p with buf := p.buf ++ [b] }, none)
    else (p, none)

/-- Check for a UTF-8 continuation byte (`0x80..=0xBF`). -/
def utf8Cont (b : Nat) : Bool :=
  decide (128 ≤ b ∧ b ≤ 191)

/-- `std::str::from_utf8` on the payload (instance.rs 370): validate a byte
list as UTF-8 per RFC 3629 and decode it to code points; `none` on invalid
input, in which case the title is discarded silently. -/
def utf8Decode : List Nat → Option (List Nat)
  | [] => some []
  | b :: rest =>
    if b < 128 then
      (utf8Decode rest).map (fun cps => b :: cps)
    else if 194 ≤ b ∧ b ≤ 223 then
      match rest with
      | b1 :: rest2 =>
        if utf8Cont b1 then
          (utf8Decode rest2).map (fun cps => ((b % 32) * 64 + b1 % 64) :: cps)
        else none
      | [] => none
    else if 224 ≤ b ∧ b ≤ 239 then
      match rest with
      | b1 :: b2 :: rest3 =>
        if utf8Cont b1 ∧ utf8Cont b2
            ∧ (b ≠ 224 ∨ 160 ≤ b1) ∧ (b ≠ 237 ∨ b1 ≤ 159) then
          (utf8Decode rest3).map
            (fun cps => ((b % 16) * 4096 + (b1 % 64) * 64 + b2 % 64) :: cps)
        else none
      | _ => none
    else if 240 ≤ b ∧ b ≤ 244 then
      match rest with
      | b1 :: b2 :: b3 :: rest4 =>
        if utf8Cont b1 ∧ utf8Cont b2 ∧ utf8Cont b3
            ∧ (b ≠ 240 ∨ 144 ≤ b1) ∧ (b ≠ 244 ∨ b1 ≤ 143) then
          (utf8Decode rest4).map
            (fun cps =>
              ((b % 8) * 262144 + (b1 % 64) * 4096 + (b2 % 64) * 64 + b3 % 64) :: cps)
        else none
      | _ => none
    else none

/-- `OscParser::collect_titles(data, titles)` (instance.rs 338-381): fold the
byte loop over the chunk, appending each BEL-terminated payload that decodes
as valid UTF-8 to the title list. -/
def collectTitles (p : OscParser) (data : List Nat) : OscParser × List (List Nat) :=
  data.foldl
    (fun acc b =>
      match oscStepRaw acc.1 b with
      | (p2, some raw) =>
        match utf8Decode raw with
        | some cps => (p2, acc.2 ++ [cps])
        | none => (p2, acc.2)
      | (p2, none) => (p2, acc.2))
    (p, [])

/-! ## Instance data model (instance.rs 11-34) and the CMDHUB title protocol -/

/-- `InstanceStatus` (instance.rs 11-16). The error message is a decoded
string (code points). -/
inductive InstanceStatus where
  | Running : InstanceStatus
  | Exited : Nat → InstanceStatus
  | Error : List Nat → InstanceStatus
  deriving Repr, DecidableEq

/-- `InstanceInfo` (instance.rs 18-28). -/
structure InstanceInfo where
  id : String
  task_id : String
  task_name : String
  status : InstanceStatus
  started_at : Nat
  ended_at : Option Nat
  child_pid : Option Nat
  title : Option (List Nat)
  deriving Repr, DecidableEq

/-- Convert a Lean string literal to the code-point list representation
used for decoded Rust strings. -/
def strCps (s : String) : List Nat :=
  s.toList.map Char.toNat

/-- Unicode `White_Space` code points, as used by Rust's
`char::is_whitespace` (via `str::trim`). -/
def isUnicodeWhitespace (c : Nat) : Bool :=
  decide (c = 9 ∨ c = 10 ∨ c = 11 ∨ c = 12 ∨ c = 13 ∨ c = 32
    ∨ c = 133 ∨ c = 160 ∨ c = 5760 ∨ (8192 ≤ c ∧ c ≤ 8202)
    ∨ c = 8232 ∨ c = 8233 ∨ c = 8239 ∨ c = 8287 ∨ c = 12288)

/-- `str::trim`: drop whitespace from both ends. -/
def strTrim (s : List Nat) : List Nat :=
  ((s.dropWhile isUnicodeWhitespace).reverse.dropWhile isUnicodeWhitespace).reverse

/-- `part.splitn(2, '=')` as used in `apply_cmdhub_title` (instance.rs
394-396): the part before the first `=`, and everything after it (empty if
there is no `=`). `61` is the `=` character. -/
def kvSplit (part : List Nat) : List Nat × List Nat :=
  let key := part.takeWhile (fun c => c ≠ 61)
  if part.contains 61 then (key, part.drop (key.length + 1)) else (key, [])

/-- `value.parse::<u32>()`: optional leading `+`, at least one ASCII digit,
value bounded by `u32::MAX`; anything else fails. `43` is `+`, `48`-`57`
are the digits. -/
def parseU32 (s : List Nat) : Option Nat :=
  let digits := match s with
    | 43 :: rest => rest
    | _ => s
  if digits.isEmpty then none
  else if digits.all (fun c => decide (48 ≤ c ∧ c ≤ 57)) then
    let v := digits.foldl (fun acc c => acc * 10 + (c - 48)) 0
    if v < 4294967296 then some v else none
  else none

/-- The key/value scan of `apply_cmdhub_title` (instance.rs 390-403):
fold over the `;`-separated parts accumulating the last seen
`state` / `pid` / `code` values. -/
def cmdhubScan (payload : List Nat) :
    Option (List Nat) × Option Nat × Option Nat :=
  (payload.splitOn 59).foldl
    (fun acc part =>
      let kv := kvSplit part
      let key := strTrim kv.1
      let value := strTrim kv.2
      if key = strCps "state" then (some value, acc.2.1, acc.2.2)
      else if key = strCps "pid" then (acc.1, parseU32 value, acc.2.2)
      else if key = strCps "code" then (acc.1, acc.2.1, parseU32 value)
      else acc)
    (none, none, none)

/-- `apply_cmdhub_title(title, info)` (instance.rs 384-420). `now` stands
for the `now_epoch()` call on line 415. Returns the `bool` result together
with the updated info. -/
def applyCmdhubTitle (title : List Nat) (info : InstanceInfo) (now : Nat) :
    Bool × InstanceInfo :=
  let t := strTrim title
  if (strCps "CMDHUB:").isPrefixOf t then
    let payload := t.drop (strCps "CMDHUB:").length
    let acc := cmdhubScan payload
    match acc.1 with
    | some st =>
      if st = strCps "running" then
        (true, { info with
          status := InstanceStatus.Running
          ended_at := none
          child_pid := match acc.2.1 with
            | some p => some p
            | none => info.child_pid })
      else if st = strCps "exited" then
        (true, { info with
          status := InstanceStatus.Exited ((acc.2.2).getD 0)
          ended_at := some now })
      else (false, info)
    | none => (false, info)
  else (false, info)

/-! ## InstanceTable (`SessionManager`, instance.rs 70-306)

The `HashMap<String, InstanceEntry>` and the counters map are modelled as
association lists with unique keys. The child-killer handle is an OS
resource not needed by any claim and is omitted from the entry. -/

/-- `InstanceEntry` (instance.rs 70-77), parametric in the master-handle
and writer types. -/
structure InstanceEntry (M W : Type) where
  info : InstanceInfo
  buffer : RingBuffer
  osc : OscParser
  master : Option M
  writer : Option W

/-- `SessionManager` state (instance.rs 79-84): the instance map, the
per-task id counters, and the configured buffer capacity. -/
structure ManagerState (M W : Type) where
  instances : List (String × InstanceEntry M W)
  counters : List (String × Nat)
  buffer_cap : Nat

/-- `HashMap::get`: first association for the key. -/
def alistLookup {κ α : Type} [DecidableEq κ] : List (κ × α) → κ → Option α
  | [], _ => none
  | kv :: rest, k => if kv.1 = k then some kv.2 else alistLookup rest k

/-- In-place mutation through `HashMap::get_mut`: replace the value at the
key, if present. -/
def alistUpdate {κ α : Type} [DecidableEq κ] : List (κ × α) → κ → α → List (κ × α)
  | [], _, _ => []
  | kv :: rest, k, v => if kv.1 = k then (k, v) :: rest else kv :: alistUpdate rest k v

/-- `HashMap::remove` / deleting a directory: drop the association for the
key (keys are unique, so a filter is equivalent). -/
def alistRemove {κ α : Type} [DecidableEq κ] (l : List (κ × α)) (k : κ) : List (κ × α) :=
  l.filter (fun kv => kv.1 ≠ k)

/-- `HashMap::insert`: replace an existing association or append a new one. -/
def alistInsert {κ α : Type} [DecidableEq κ] (l : List (κ × α)) (k : κ) (v : α) :
    List (κ × α) :=
  if (alistLookup l k).isSome then alistUpdate l k v else l ++ [(k, v)]

/-- `SessionManager::take_master(id)` (instance.rs 256-264). Faithful to the
source: both `Option::take()` calls run unconditionally once the entry is
found (emptying both slots), and the pair is returned only when both were
present. -/
def takeMaster {M W : Type} (st : ManagerState M W) (id : String) :
    Option (M × W) × ManagerState M W :=
  match alistLookup st.instances id with
  | none => (none, st)
  | some e =>
    let e2 := { e with master := none, writer := none }
    let st2 := { st with instances := alistUpdate st.instances id e2 }
    match e.master, e.writer with
    | some m, some w => (some (m, w), st2)
    | _, _ => (none, st2)

/-- `SessionManager::return_master(id, master, writer)` (instance.rs
266-273): reinstate both handles if the instance still exists, otherwise
drop them. -/
def returnMaster {M W : Type} (st : ManagerState M W) (id : String) (m : M) (w : W) :
    ManagerState M W :=
  match alistLookup st.instances id with
  | none => st
  | some e =>
    { st with instances :=
        alistUpdate st.instances id ({ e with master := some m, writer := some w }) }

/-- `SessionManager::remove_if_exited(id)` (instance.rs 275-284): delete the
entry and answer `true` exactly when the status matches `Exited(_)`. -/
def removeIfExited {M W : Type} (st : ManagerState M W) (id : String) :
    Bool × ManagerState M W :=
  match alistLookup st.instances id with
  | some e =>
    match e.info.status with
    | InstanceStatus.Exited _ => (true, { st with instances := alistRemove st.instances id })
    | _ => (false, st)
  | none => (false, st)

/-- The per-entry body of `SessionManager::append_output(id, data)`
(instance.rs 205-219): push the chunk into the ring buffer, run the OSC
scanner, route `CMDHUB:`-prefixed titles through `apply_cmdhub_title`
(discarding its result), remember the last generic title, and store it. -/
def entryAppendOutput {M W : Type} (e : InstanceEntry M W) (data : List Nat) (now : Nat) :
    InstanceEntry M W :=
  let buffer := e.buffer.push data
  let scanned := collectTitles e.osc data
  let step := scanned.2.foldl
    (fun (acc : InstanceInfo × Option (List Nat)) title =>
      if (strCps "CMDHUB:").isPrefixOf (strTrim title) then
        ((applyCmdhubTitle title acc.1 now).2, acc.2)
      else (acc.1, some title))
    (e.info, none)
  let info := match step.2 with
    | some t => { step.1 with title := some t }
    | none => step.1
  { e with info := info, buffer := buffer, osc := scanned.1 }

/-- `SessionManager::append_output(id, data)` (instance.rs 203-222): no-op
on an unknown id. -/
def appendOutput {M W : Type} (st : ManagerState M W) (id : String) (data : List Nat)
    (now : Nat) : ManagerState M W :=
  match alistLookup st.instances id with
  | none => st
  | some e =>
    { st with instances := alistUpdate st.instances id (entryAppendOutput e data now) }

/-- `SessionManager::next_instance_id(task_id)` (instance.rs 300-305). -/
def nextInstanceId (counters : List (String × Nat)) (task_id : String) :
    String × List (String × Nat) :=
  let c := (alistLookup counters task_id).getD 0 + 1
  (task_id ++ "#" ++ toString c, alistInsert counters task_id c)

/-- `SessionManager::spawn_raw(task, command)` (instance.rs 95-185), with
the three fallible OS calls injected as parameters: `ptyRes` for
`pty_system.openpty(..)` (line 97, the surviving master handle), `spawnRes`
for `pair.slave.spawn_command(cmd)` (line 132, delivering the child pid),
and `writerRes` for `pair.master.take_writer()` (line 137). `now` stands
for `now_epoch()`. Each `?` propagates the error before the instance id is
allocated and the entry inserted (with empty master/writer slots, lines
152-164); on success the info, master and writer are handed back to the
caller (line 184). The background exit watcher (lines 168-182) is
concurrent behaviour outside this model. -/
def spawnRaw {E M W : Type} (st : ManagerState M W) (task_id task_name : String)
    (ptyRes : Except E M) (spawnRes : Except E (Option Nat)) (writerRes : Except E W)
    (now : Nat) : ManagerState M W × Except E (InstanceInfo × M × W) :=
  match ptyRes with
  | Except.error e => (st, Except.error e)
  | Except.ok master =>
    match spawnRes with
    | Except.error e => (st, Except.error e)
    | Except.ok child_pid =>
      match writerRes with
      | Except.error e => (st, Except.error e)
      | Except.ok writer =>
        let allocated := nextInstanceId st.counters task_id
        let info : InstanceInfo :=
          { id := allocated.1
            task_id := task_id
            task_name := task_name
            status := InstanceStatus.Running
            started_at := now
            ended_at := none
            child_pid := child_pid
            title := none }
        let entry : InstanceEntry M W :=
          { info := info
            buffer := RingBuffer.new st.buffer_cap
            osc := OscParser.new
            master := none
            writer := none }
        ({ st with
            instances := alistInsert st.instances allocated.1 entry
            counters := allocated.2 },
         Except.ok (info, master, writer))

/-- The both-or-neither handle invariant over the instance table: in every
entry, the master and writer slots are populated together. -/
def handlesOk {M W : Type} (st : ManagerState M W) : Bool :=
  st.instances.all (fun kv => kv.2.master.isSome == kv.2.writer.isSome)

/-- The expected next byte of the OSC title grammar at each parser state,
as enumerated by the specification: ESC in `Idle`, `]` after ESC, `0` or
`2` after `]`, `;` after the code digit (everything is expected while
collecting). -/
def oscExpected : OscState → Nat → Bool
  | OscState.Idle, b => decide (b = 27)
  | OscState.Esc, b => decide (b = 93)
  | OscState.Osc, b => decide (b = 48 ∨ b = 50)
  | OscState.OscCode, b => decide (b = 59)
  | OscState.Collect, _ => true

/-! ## AnsiStyleParser (cli/src/main.rs 466-612)

The ratatui `Style` is modelled by its fields used here: optional
foreground/background color and the two modifier bit sets
(`add_modifier` / `sub_modifier`) as bit masks with ratatui's flag values. -/

/-- The ratatui `Color` values reachable from `ansi_color`, plus the
indexed and RGB forms produced by extended SGR parameters. -/
inductive AnsiColor where
  | Black
  | Red
  | Green
  | Yellow
  | Blue
  | Magenta
  | Cyan
  | Gray
  | DarkGray
  | LightRed
  | LightGreen
  | LightYellow
  | LightBlue
  | LightMagenta
  | LightCyan
  | White
  | Indexed : Nat → AnsiColor
  | Rgb : Nat → Nat → Nat → AnsiColor
  deriving Repr, DecidableEq

/-- ratatui `Modifier` bit flags (the ones this code uses). -/
def MOD_BOLD : Nat := 1
def MOD_DIM : Nat := 2
def MOD_ITALIC : Nat := 4
def MOD_UNDERLINED : Nat := 8
def MOD_REVERSED : Nat := 64
def MOD_CROSSED_OUT : Nat := 256

/-- ratatui `Style`, restricted to the fields this code manipulates. -/
structure TuiStyle where
  fg : Option AnsiColor
  bg : Option AnsiColor
  addMod : Nat
  subMod : Nat
  deriving Repr, DecidableEq

/-- `Style::default()`. -/
def TuiStyle.default : TuiStyle :=
  { fg := none, bg := none, addMod := 0, subMod := 0 }

/-- Bitwise `a AND NOT b` on flag masks. -/
def bitsDiff (a b : Nat) : Nat :=
  a ^^^ (a &&& b)

/-- ratatui `Style::add_modifier`: set the flags in `add_modifier`, clear
them in `sub_modifier`. -/
def TuiStyle.addModifier (s : TuiStyle) (m : Nat) : TuiStyle :=
  { s with addMod := s.addMod ||| m, subMod := bitsDiff s.subMod m }

/-- ratatui `Style::remove_modifier`: clear the flags in `add_modifier`,
set them in `sub_modifier`. -/
def TuiStyle.removeModifier (s : TuiStyle) (m : Nat) : TuiStyle :=
  { s with addMod := bitsDiff s.addMod m, subMod := s.subMod ||| m }

/-- `ansi_color(code)` (main.rs 582-602). -/
def ansiColor (code : Int) : Option AnsiColor :=
  if code = 30 then some AnsiColor.Black
  else if code = 31 then some AnsiColor.Red
  else if code = 32 then some AnsiColor.Green
  else if code = 33 then some AnsiColor.Yellow
  else if code = 34 then some AnsiColor.Blue
  else if code = 35 then some AnsiColor.Magenta
  else if code = 36 then some AnsiColor.Cyan
  else if code = 37 then some AnsiColor.Gray
  else if code = 90 then some AnsiColor.DarkGray
  else if code = 91 then some AnsiColor.LightRed
  else if code = 92 then some AnsiColor.LightGreen
  else if code = 93 then some AnsiColor.LightYellow
  else if code = 94 then some AnsiColor.LightBlue
  else if code = 95 then some AnsiColor.LightMagenta
  else if code = 96 then some AnsiColor.LightCyan
  else if code = 97 then some AnsiColor.White
  else none

/-- `clamp_u8(value)` (main.rs 604-612). -/
def clampU8 (value : Int) : Nat :=
  if value < 0 then 0
  else if value > 255 then 255
  else value.toNat

/-- `value.parse::<i64>()`: optional sign, at least one ASCII digit, value
within the `i64` range. `43` is `+`, `45` is `-`. -/
def parseI64 (s : List Nat) : Option Int :=
  let signed : Int × List Nat := match s with
    | 43 :: rest => (1, rest)
    | 45 :: rest => (-1, rest)
    | _ => (1, s)
  let digits := signed.2
  if digits.isEmpty then none
  else if digits.all (fun c => decide (48 ≤ c ∧ c ≤ 57)) then
    let v : Nat := digits.foldl (fun acc c => acc * 10 + (c - 48)) 0
    let iv : Int := signed.1 * (v : Int)
    if -9223372036854775808 ≤ iv ∧ iv ≤ 9223372036854775807 then some iv
    else none
  else none

/-- Set foreground or background, as selected by `is_fg` (main.rs 543-572). -/
def setColor (isFg : Bool) (c : AnsiColor) (style : TuiStyle) : TuiStyle :=
  if isFg then { style with fg := some c } else { style with bg := some c }

/-- A single non-extended SGR parameter (the flat arms of the `match` in
`apply_sgr`, main.rs 525-576). Codes 38/48 are handled by the caller. -/
def applyOneSgr (c : Int) (style : TuiStyle) : TuiStyle :=
  if c = 0 then TuiStyle.default
  else if c = 1 then style.addModifier MOD_BOLD
  else if c = 2 then style.addModifier MOD_DIM
  else if c = 3 then style.addModifier MOD_ITALIC
  else if c = 4 then style.addModifier MOD_UNDERLINED
  else if c = 7 then style.addModifier MOD_REVERSED
  else if c = 9 then style.addModifier MOD_CROSSED_OUT
  else if c = 22 then style.removeModifier (MOD_BOLD ||| MOD_DIM)
  else if c = 23 then style.removeModifier MOD_ITALIC
  else if c = 24 then style.removeModifier MOD_UNDERLINED
  else if c = 27 then style.removeModifier MOD_REVERSED
  else if c = 29 then style.removeModifier MOD_CROSSED_OUT
  else if (30 ≤ c ∧ c ≤ 37) ∨ (90 ≤ c ∧ c ≤ 97) then { style with fg := ansiColor c }
  else if (40 ≤ c ∧ c ≤ 47) ∨ (100 ≤ c ∧ c ≤ 107) then { style with bg := ansiColor (c - 10) }
  else if c = 39 then { style with fg := none }
  else if c = 49 then { style with bg := none }
  else style

/-- The indexed `while index < codes.len()` loop of `apply_sgr` (main.rs
523-579): extended `38`/`48` parameters consume their arguments when
enough follow (`;5;N` advances by 3, `;2;R;G;B` by 5); otherwise the code
falls through and scanning resumes at the next parameter. -/
def applySgrLoop (codes : List Int) (index : Nat) (style : TuiStyle) : TuiStyle :=
  if h : index < codes.length then
    let c := codes.getD index 0
    if c = 38 ∨ c = 48 then
      if index + 1 < codes.length then
        if codes.getD (index + 1) 0 = 5 ∧ index + 2 < codes.length then
          applySgrLoop codes (index + 3)
            (setColor (c = 38) (AnsiColor.Indexed (clampU8 (codes.getD (index + 2) 0))) style)
        else if codes.getD (index + 1) 0 = 2 ∧ index + 4 < codes.length then
          applySgrLoop codes (index + 5)
            (setColor (c = 38)
              (AnsiColor.Rgb (clampU8 (codes.getD (index + 2) 0))
                (clampU8 (codes.getD (index + 3) 0))
                (clampU8 (codes.getD (index + 4) 0)))
              style)
        else applySgrLoop codes (index + 1) style
      else applySgrLoop codes (index + 1) style
    else applySgrLoop codes (index + 1) (applyOneSgr c style)
  else style
termination_by codes.length - index
decreasing_by all_goals omega

/-- `apply_sgr(sequence, style)` (main.rs 513-580): an empty parameter
string means `[0]`; otherwise split on `;` and keep the parameters that
parse as `i64`. -/
def applySgr (seq : List Nat) (style : TuiStyle) : TuiStyle :=
  let codes := if seq.isEmpty then [(0 : Int)] else (seq.splitOn 59).filterMap parseI64
  applySgrLoop codes 0 style

/-- A styled run: the text (code points) with the style active when it was
flushed (ratatui `Span`). A line is a list of runs, the result a list of
lines (ratatui `Text`). -/
abbrev AnsiLine : Type := List (List Nat × TuiStyle)

/-- The character loop of `parse_ansi_text` (main.rs 473-509). `27` is ESC,
`91` is the `[` character, `109` is `m`, `10` is the newline. An
`ESC [` introducer flushes the pending run and consumes up to the
terminating `m` (applying the SGR parameters); if no `m` follows before
the end of input the sequence is swallowed without effect. A newline
flushes the pending run and emits the line (even when empty). -/
def ansiGo (chars : List Nat) (style : TuiStyle) (buffer : List Nat)
    (spans : AnsiLine) (lines : List AnsiLine) : List AnsiLine :=
  match chars with
  | [] =>
    let spans2 := if buffer.isEmpty then spans else spans ++ [(buffer, style)]
    if spans2.isEmpty then lines else lines ++ [spans2]
  | c :: rest =>
    if c = 27 ∧ rest.head? = some 91 then
      let rest2 := rest.tail
      let spans2 := if buffer.isEmpty then spans else spans ++ [(buffer, style)]
      let seq := rest2.takeWhile (fun x => x ≠ 109)
      if rest2.contains 109 then
        ansiGo (rest2.drop (seq.length + 1)) (applySgr seq style) [] spans2 lines
      else if spans2.isEmpty then lines else lines ++ [spans2]
    else if c = 10 then
      let spans2 := if buffer.isEmpty then spans else spans ++ [(buffer, style)]
      ansiGo rest style [] [] (lines ++ [spans2])
    else
      ansiGo rest style (buffer ++ [c]) spans lines
termination_by chars.length
decreasing_by
  · simp only [List.length_cons, List.length_drop]
    have h2 : rest.tail.length ≤ rest.length := by
      cases rest <;> simp
    omega
  · simp
  · simp

/-- `parse_ansi_text(input)` (main.rs 466-511). -/
def parseAnsiText (input : List Nat) : List AnsiLine :=
  ansiGo input TuiStyle.default [] [] []

/-! ## SessionStore (session/mod.rs 38-186)

The two directory trees are modelled as association lists from session id
(`Uuid`, modelled as `Nat`) to the `started_at` field of the session's
metadata — the only metadata field the history operations consult. Every
directory is assumed to hold parseable metadata (`list_sessions_in` skips
unparseable ones). -/

/-- The filesystem state seen by `SessionStore`: the active and history
directory trees, each mapping session id to the session's `started_at`. -/
structure StoreState where
  active : List (Nat × Nat)
  history : List (Nat × Nat)
  deriving Repr, DecidableEq

/-- `list_sessions_in(dir)` (session/mod.rs 160-179): read the valid
session records and sort them by `started_at` (stable). -/
def listSessionsIn (dirs : List (Nat × Nat)) : List (Nat × Nat) :=
  dirs.mergeSort (fun a b => a.2 ≤ b.2)

/-- `SessionStore::prune_history(max_entries)` (session/mod.rs 143-157):
if the history holds more than `max_entries` sessions, sort by
`started_at` and delete the directories of the oldest `count − max`
sessions. -/
def pruneHistory (st : StoreState) (maxEntries : Nat) : StoreState :=
  let sessions := listSessionsIn st.history
  if sessions.length ≤ maxEntries then st
  else
    let sorted := sessions.mergeSort (fun a b => a.2 ≤ b.2)
    let excess := sessions.length - maxEntries
    let doomedIds := (sorted.take excess).map (fun kv => kv.1)
    { st with history := st.history.filter (fun kv => ¬ doomedIds.contains kv.1) }

/-- `SessionStore::move_to_history(id, max_entries)` (session/mod.rs
130-141): if the session's active directory exists, delete any stale
history directory with the same id and rename active→history; then prune. -/
def moveToHistory (st : StoreState) (id : Nat) (maxEntries : Nat) : StoreState :=
  let st2 := match alistLookup st.active id with
    | some t =>
      { active := alistRemove st.active id
        history := alistRemove st.history id ++ [(id, t)] }
    | none => st
  pruneHistory st2 maxEntries

/-! ## AttachClient input relay (cli/src/main.rs 883-916)

The byte loop over one chunk read from stdin (main.rs 894-902): bytes up
to the first `0x02` (STX) are queued for the host, `0x02` itself sets the
detach flag and stops the scan. -/

/-- Scan one chunk: the bytes to forward and the detach flag. -/
def scanChunk : List Nat → List Nat × Bool
  | [] => ([], false)
  | b :: rest =>
    if b = 2 then ([], true)
    else
      let scanned := scanChunk rest
      (b :: scanned.1, scanned.2)

/-- The client-side read loop (main.rs 884-913) restricted to the stdin
direction, over the sequence of chunks `read` returns: an empty chunk
(EOF) stops the loop; otherwise the chunk's scan result is forwarded
(`write_all`) and the loop stops when the detach flag was set. The
returned list is the concatenation of all forwarded bytes; `shutdown` on
the write side follows unconditionally after the loop (main.rs 915). -/
def relayInput : List (List Nat) → List Nat
  | [] => []
  | c :: rest =>
    if c.isEmpty then []
    else
      let scanned := scanChunk c
      if scanned.2 then scanned.1 else scanned.1 ++ relayInput rest

/-! ## Concrete fixtures used in claim statements -/

/-- A freshly spawned instance descriptor (status `Running`, no end
timestamp, no title), as registered by `spawn_raw`. -/
def sampleInfo : InstanceInfo :=
  { id := "t#1"
    task_id := "t"
    task_name := "T"
    status := InstanceStatus.Running
    started_at := 5
    ended_at := none
    child_pid := some 4
    title := none }

/-- The instance's table entry after `spawn` checked the handles back in
(master and writer both present; handle types instantiated at `Nat`). -/
def sampleEntry : InstanceEntry Nat Nat :=
  { info := sampleInfo
    buffer := RingBuffer.new 8
    osc := OscParser.new
    master := some 11
    writer := some 22 }

/-- A one-instance manager state. -/
def sampleState : ManagerState Nat Nat :=
  { instances := [("t#1", sampleEntry)], counters := [("t", 1)], buffer_cap := 8 }

/-- The same instance with terminal status `Error("boom")`. -/
def errorState : ManagerState Nat Nat :=
  { instances :=
      [("t#1", { sampleEntry with
          info := { sampleInfo with status := InstanceStatus.Error (strCps "boom") } })]
    counters := [("t", 1)]
    buffer_cap := 8 }

/-- The byte sequence `ESC ] 0 ; CMDHUB:state=exited;code=7 BEL`. -/
def oscExitSeq : List Nat :=
  [27, 93, 48, 59] ++ strCps "CMDHUB:state=exited;code=7" ++ [7]

/-- The byte sequence `ESC ] 2 ; hello world BEL`. -/
def oscTitleSeq : List Nat :=
  [27, 93, 50, 59] ++ strCps "hello world" ++ [7]

/-!
# Theorems
-/

/-! ### Ring buffer lemmas -/

theorem evictFront_eq_drop (buf : List Nat) (need cap : Nat) :
    evictFront buf need cap = buf.drop (buf.length + need - cap) := by
  induction buf with
  | nil => simp [evictFront]
  | cons b rest ih =>
    rw [evictFront]
    by_cases h : (b :: rest).length + need > cap
    · simp only [if_pos h, ih]
      have : (b :: rest).length + need - cap = (rest.length + need - cap) + 1 := by
        simp only [List.length_cons] at h ⊢; omega
      rw [this, List.drop_succ_cons]
    · simp only [if_neg h]
      have : (b :: rest).length + need - cap = 0 := by omega
      rw [this, List.drop_zero]

theorem cap_push (rb : RingBuffer) (d : List Nat) : (rb.push d).cap = rb.cap := by
  unfold RingBuffer.push
  split <;> try rfl
  split <;> rfl

/-- One push preserves the "buffer is the capacity-bounded suffix of all
input so far" invariant. -/
theorem push_suffix (rb : RingBuffer) (L d : List Nat)
    (h : rb.buf = L.drop (L.length - rb.cap)) :
    (rb.push d).buf = (L ++ d).drop ((L ++ d).length - rb.cap) := by
  unfold RingBuffer.push
  by_cases hd : d.isEmpty
  · have : d = [] := List.isEmpty_iff.mp hd
    subst this
    simp [h]
  · simp only [if_neg hd]
    by_cases hlen : rb.cap ≤ d.length
    · simp only [if_pos hlen]
      have harith : (L ++ d).length - rb.cap = L.length + (d.length - rb.cap) := by
        simp only [List.length_append]; omega
      rw [harith, ← List.drop_drop, List.drop_left]
    · simp only [if_neg hlen]
      rw [evictFront_eq_drop, h, List.drop_drop, List.length_drop]
      have hk : (L.length - rb.cap) + (L.length - (L.length - rb.cap) + d.length - rb.cap)
          = L.length + d.length - rb.cap := by omega
      rw [hk]
      have hle : L.length + d.length - rb.cap ≤ L.length := by omega
      have h2 : (L ++ d).length - rb.cap = L.length + d.length - rb.cap := by
        simp [List.length_append]
      rw [h2, List.drop_append_of_le_length hle]

/-- Folding pushes over a chunk list keeps the suffix invariant. -/
theorem foldl_push_suffix (cap : Nat) (chunks : List (List Nat)) :
    (chunks.foldl RingBuffer.push (RingBuffer.new cap)).buf
      = chunks.flatten.drop (chunks.flatten.length - cap)
    ∧ (chunks.foldl RingBuffer.push (RingBuffer.new cap)).cap = cap := by
  suffices h : ∀ (rb : RingBuffer) (L : List Nat), rb.cap = cap →
      rb.buf = L.drop (L.length - cap) →
      (chunks.foldl RingBuffer.push rb).buf
        = (L ++ chunks.flatten).drop ((L ++ chunks.flatten).length - cap)
      ∧ (chunks.foldl RingBuffer.push rb).cap = cap by
    have := h (RingBuffer.new cap) [] rfl (by simp [RingBuffer.new])
    simpa using this
  induction chunks with
  | nil => intro rb L hc hb; simpa using And.intro hb hc
  | cons c cs ih =>
    intro rb L hc hb
    simp only [List.foldl_cons, List.flatten_cons]
    have hstep : (rb.push c).buf = (L ++ c).drop ((L ++ c).length - (rb.push c).cap) := by
      rw [cap_push]; exact push_suffix rb L c (by rw [hc]; exact hb)
    have := ih (rb.push c) (L ++ c) (by rw [cap_push, hc]) (by rw [hstep, cap_push, hc])
    simpa [List.append_assoc] using this

/-- C1: for every capacity C > 0 and every sequence of chunks pushed into
an `OutputRingBuffer` of capacity C, `snapshot()` equals the suffix of
length `min(C, total pushed length)` of the concatenation of all pushed
chunks; in particular its length is at most C, and a chunk whose length
alone is at least C leaves exactly that chunk's trailing C bytes. -/
theorem ringbuffer_snapshot_is_bounded_suffix (cap : Nat) (hcap : 0 < cap)
    (chunks : List (List Nat)) :
    (chunks.foldl RingBuffer.push (RingBuffer.new cap)).snapshot
      = chunks.flatten.drop (chunks.flatten.length - cap)
    ∧ (chunks.foldl RingBuffer.push (RingBuffer.new cap)).snapshot.length
      = min cap chunks.flatten.length
    ∧ (chunks.foldl RingBuffer.push (RingBuffer.new cap)).snapshot.length ≤ cap
    ∧ ∀ (rb : RingBuffer) (data : List Nat), rb.cap = cap → cap ≤ data.length →
        (rb.push data).snapshot = data.drop (data.length - cap) := by
  obtain ⟨hbuf, -⟩ := foldl_push_suffix cap chunks
  refine ⟨hbuf, ?_, ?_, ?_⟩
  · rw [RingBuffer.snapshot, hbuf, List.length_drop]; omega
  · rw [RingBuffer.snapshot, hbuf, List.length_drop]; omega
  · intro rb data hrb hlen
    have hne : ¬ data.isEmpty := by
      cases data with
      | nil => simp at hlen; omega
      | cons a l => simp
    rw [RingBuffer.snapshot, RingBuffer.push]
    rw [if_neg hne, if_pos (by rw [hrb]; exact hlen)]
    simp [hrb]

theorem ringbuffer_snapshot_is_bounded_suffix_witness :
    (0 < 3)
    ∧ (([[1], [2, 3], [4, 5, 6, 7]].foldl RingBuffer.push (RingBuffer.new 3)).snapshot
        = [[1], [2, 3], [4, 5, 6, 7]].flatten.drop
            ([[1], [2, 3], [4, 5, 6, 7]].flatten.length - 3)
      ∧ (([[1], [2, 3], [4, 5, 6, 7]].foldl RingBuffer.push (RingBuffer.new 3)).snapshot.length
        = min 3 [[1], [2, 3], [4, 5, 6, 7]].flatten.length)
      ∧ (([[1], [2, 3], [4, 5, 6, 7]].foldl RingBuffer.push (RingBuffer.new 3)).snapshot.length ≤ 3)
      ∧ ∀ (rb : RingBuffer) (data : List Nat), rb.cap = 3 → 3 ≤ data.length →
          (rb.push data).snapshot = data.drop (data.length - 3)) :=
  ⟨by decide, ringbuffer_snapshot_is_bounded_suffix 3 (by decide) [[1], [2, 3], [4, 5, 6, 7]]⟩

/-! ### C4: the CMDHUB state protocol and generic titles -/

/-- C4: feeding the instance (through `appendOutput`) the byte sequence
`ESC ] 0 ; CMDHUB:state=exited;code=7 BEL` sets the status to `Exited(7)`
and a non-empty end timestamp while leaving the generic title unchanged;
feeding it `ESC ] 2 ; hello world BEL` instead sets the title to
`"hello world"` and leaves status and end timestamp untouched. -/
theorem cmdhub_state_and_title_updates (now : Nat) :
    ((alistLookup (appendOutput sampleState "t#1" oscExitSeq now).instances "t#1").map
        (fun e => (e.info.status, e.info.ended_at, e.info.title))
      = some (InstanceStatus.Exited 7, some now, none))
    ∧ ((alistLookup (appendOutput sampleState "t#1" oscTitleSeq now).instances "t#1").map
        (fun e => (e.info.status, e.info.ended_at, e.info.title))
      = some (InstanceStatus.Running, none, some (strCps "hello world"))) := by
  exact ⟨rfl, rfl⟩

/-! ### C7: the SGR style parser -/

set_option maxRecDepth 2000

/-- C7: parsing `"\x1b[1;31mERR\x1b[0m ok"` yields exactly one line of two
styled runs: `"ERR"` with the bold attribute and red foreground, then
`" ok"` with the default style. -/
theorem ansi_bold_red_two_runs :
    parseAnsiText (strCps "\x1b[1;31mERR\x1b[0m ok")
      = [[(strCps "ERR",
            { fg := some AnsiColor.Red, bg := none, addMod := MOD_BOLD, subMod := 0 }),
          (strCps " ok", TuiStyle.default)]] := by
  simp +decide [parseAnsiText, ansiGo, applySgr, applySgrLoop, applyOneSgr, ansiColor,
    setColor, clampU8, parseI64, strCps, TuiStyle.default, TuiStyle.addModifier, bitsDiff,
    MOD_BOLD]

/-! ### C3: removeIfExited -/

/-- C3 counterexample: `Error(..)` is a terminal status, yet
`remove_if_exited` answers `false` on it and leaves the table unchanged —
the code matches only `Exited(_)`, so the claim that every terminal status
is removed fails at this input. -/
theorem removeIfExited_error_not_removed :
    ((alistLookup errorState.instances "t#1").map (fun e => e.info.status)
      = some (InstanceStatus.Error (strCps "boom")))
    ∧ (removeIfExited errorState "t#1").1 = false
    ∧ (removeIfExited errorState "t#1").2.instances = errorState.instances := by
  exact ⟨rfl, rfl, rfl⟩

/-- C3 (amended): `removeIfExited(id)` deletes the entry and returns `true`
exactly when the instance's status is `Exited(code)`; for `Running` or
`Error(..)` status, and for an unknown id, it returns `false` and leaves
the table unchanged. -/
theorem removeIfExited_removes_exactly_exited {M W : Type} (st : ManagerState M W)
    (id : String) :
    ((removeIfExited st id).1 = true
      ↔ ∃ e code, alistLookup st.instances id = some e
          ∧ e.info.status = InstanceStatus.Exited code)
    ∧ ((removeIfExited st id).1 = false → (removeIfExited st id).2 = st)
    ∧ ((removeIfExited st id).1 = true →
        (removeIfExited st id).2.instances = alistRemove st.instances id) := by
  cases h : alistLookup st.instances id with
  | none =>
    have hr : removeIfExited st id = (false, st) := by
      unfold removeIfExited; rw [h]
    simp [hr, h]
  | some e =>
    cases hs : e.info.status with
    | Running =>
      have hr : removeIfExited st id = (false, st) := by
        unfold removeIfExited; simp only [h, hs]
      simp [hr, h, hs]
    | Exited code =>
      have hr : removeIfExited st id
          = (true, { st with instances := alistRemove st.instances id }) := by
        unfold removeIfExited; simp only [h, hs]
      refine ⟨?_, ?_, ?_⟩
      · rw [hr]
        simp only [true_iff]
        exact ⟨e, code, rfl, hs⟩
      · intro hf; rw [hr] at hf; cases hf
      · intro _; rw [hr]
    | Error msg =>
      have hr : removeIfExited st id = (false, st) := by
        unfold removeIfExited; simp only [h, hs]
      simp [hr, h, hs]

theorem removeIfExited_removes_exactly_exited_witness :
    (((removeIfExited errorState "zzz").1 = true
      ↔ ∃ e code, alistLookup errorState.instances "zzz" = some e
          ∧ e.info.status = InstanceStatus.Exited code)
    ∧ ((removeIfExited errorState "zzz").1 = false → (removeIfExited errorState "zzz").2 = errorState)
    ∧ ((removeIfExited errorState "zzz").1 = true →
        (removeIfExited errorState "zzz").2.instances = alistRemove errorState.instances "zzz")) :=
  removeIfExited_removes_exactly_exited errorState "zzz"

/-! ### C6: OSC parser resynchronisation -/

/-- C6 counterexample: in state `Esc` the byte `0x1b` (ESC) is not the
expected next byte `]`, yet the parser stays in `Esc` instead of returning
to `Idle`; the resynchronisation claim as stated fails at this input. -/
theorem osc_resync_esc_esc_fails :
    ¬ (∀ (p : OscParser) (b : Nat), p.state ≠ OscState.Collect →
        oscExpected p.state b = false → (oscStepRaw p b).1.state = OscState.Idle) := by
  intro h
  exact absurd (h { state := OscState.Esc, buf := [] } 27 (by decide) (by decide)) (by decide)

/-- C6 (amended): at every state other than `Collect`, consuming a byte
that is not the expected next byte of the OSC title grammar returns the
parser to `Idle`, with a single exception: the byte ESC consumed in state
`Esc` keeps the parser in `Esc` (restarting the escape sequence). -/
theorem osc_resync_to_idle (p : OscParser) (b : Nat)
    (hstate : p.state ≠ OscState.Collect) (hunexp : oscExpected p.state b = false) :
    (oscStepRaw p b).1.state
      = if p.state = OscState.Esc ∧ b = 27 then OscState.Esc else OscState.Idle := by
  cases hp : p.state with
  | Idle =>
    have hb : ¬ b = 27 := by simpa [oscExpected, hp] using hunexp
    simp [oscStepRaw, hp, hb]
  | Esc =>
    have hb : ¬ b = 93 := by simpa [oscExpected, hp] using hunexp
    by_cases h27 : b = 27
    · simp [oscStepRaw, hp, hb, h27]
    · simp [oscStepRaw, hp, hb, h27]
  | Osc =>
    have hb : ¬ (b = 48 ∨ b = 50) := by simpa [oscExpected, hp] using hunexp
    simp [oscStepRaw, hp, hb]
  | OscCode =>
    have hb : ¬ b = 59 := by simpa [oscExpected, hp] using hunexp
    simp [oscStepRaw, hp, hb]
  | Collect => exact absurd hp hstate

theorem osc_resync_to_idle_witness :
    (oscStepRaw { state := OscState.Osc, buf := [] } 99).1.state
      = if ({ state := OscState.Osc, buf := [] } : OscParser).state = OscState.Esc ∧ 99 = 27
        then OscState.Esc else OscState.Idle :=
  osc_resync_to_idle { state := OscState.Osc, buf := [] } 99 (by decide) (by decide)

theorem cmdhub_state_and_title_updates_witness :
    ((alistLookup (appendOutput sampleState "t#1" oscExitSeq 100).instances "t#1").map
        (fun e => (e.info.status, e.info.ended_at, e.info.title))
      = some (InstanceStatus.Exited 7, some 100, none))
    ∧ ((alistLookup (appendOutput sampleState "t#1" oscTitleSeq 100).instances "t#1").map
        (fun e => (e.info.status, e.info.ended_at, e.info.title))
      = some (InstanceStatus.Running, none, some (strCps "hello world"))) :=
  cmdhub_state_and_title_updates 100

/-! ### Association-list lemmas -/

theorem alistLookup_update_self {κ α : Type} [DecidableEq κ] (l : List (κ × α)) (k : κ)
    (v : α) :
    alistLookup (alistUpdate l k v) k
      = if (alistLookup l k).isSome then some v else none := by
  induction l with
  | nil => simp [alistLookup, alistUpdate]
  | cons kv rest ih =>
    by_cases h : kv.1 = k
    · simp [alistUpdate, alistLookup, h]
    · simp [alistUpdate, alistLookup, h, ih]

theorem alistLookup_update_ne {κ α : Type} [DecidableEq κ] (l : List (κ × α)) (k k2 : κ)
    (v : α) (h : k2 ≠ k) :
    alistLookup (alistUpdate l k v) k2 = alistLookup l k2 := by
  induction l with
  | nil => simp [alistLookup, alistUpdate]
  | cons kv rest ih =>
    by_cases hk : kv.1 = k
    · simp [alistUpdate, alistLookup, hk, Ne.symm h]
    · by_cases hk2 : kv.1 = k2
      · simp [alistUpdate, alistLookup, hk, hk2, h]
      · simp [alistUpdate, alistLookup, hk, hk2, ih]

theorem alistLookup_remove_self {κ α : Type} [DecidableEq κ] (l : List (κ × α)) (k : κ) :
    alistLookup (alistRemove l k) k = none := by
  induction l with
  | nil => simp [alistLookup, alistRemove]
  | cons kv rest ih =>
    by_cases h : kv.1 = k
    · simpa [alistRemove, alistLookup, h] using ih
    · simpa [alistRemove, alistLookup, h] using ih

theorem alistLookup_mem {κ α : Type} [DecidableEq κ] {l : List (κ × α)} {k : κ} {v : α}
    (h : alistLookup l k = some v) : (k, v) ∈ l := by
  induction l with
  | nil => simp [alistLookup] at h
  | cons kv rest ih =>
    by_cases hk : kv.1 = k
    · rw [alistLookup, if_pos hk] at h
      have hv : kv.2 = v := by injection h
      have hkv : kv = (k, v) := by
        obtain ⟨k1, v1⟩ := kv
        simp only at hk hv
        rw [hk, hv]
      exact List.mem_cons.mpr (Or.inl hkv.symm)
    · rw [alistLookup, if_neg hk] at h
      exact List.mem_cons_of_mem _ (ih h)

/-! ### C2: the master/writer checkout protocol -/

/-- Behaviour of `takeMaster` once the entry is known. -/
theorem takeMaster_of_lookup {M W : Type} (st : ManagerState M W) (id : String)
    (e : InstanceEntry M W) (h : alistLookup st.instances id = some e) :
    takeMaster st id
      = ((match e.master, e.writer with
          | some m, some w => some (m, w)
          | _, _ => none),
         { st with instances :=
            alistUpdate st.instances id ({ e with master := none, writer := none }) }) := by
  obtain ⟨einfo, ebuffer, eosc, emaster, ewriter⟩ := e
  unfold takeMaster
  rw [h]
  cases emaster <;> cases ewriter <;> rfl

/-- Behaviour of `takeMaster` on an unknown id. -/
theorem takeMaster_of_none {M W : Type} (st : ManagerState M W) (id : String)
    (h : alistLookup st.instances id = none) :
    takeMaster st id = (none, st) := by
  unfold takeMaster
  rw [h]

/-- C2: if an instance's master/writer pair is checked in, `takeMaster`
returns it; an immediately following `takeMaster` on the same id (without
an intervening `returnMaster`) returns none; after `returnMaster` a
subsequent `takeMaster` succeeds again; and `takeMaster` on an id absent
from the table returns none. -/
theorem take_return_master_protocol {M W : Type} (st : ManagerState M W) (id : String)
    (e : InstanceEntry M W) (m : M) (w : W)
    (hfound : alistLookup st.instances id = some e)
    (hm : e.master = some m) (hw : e.writer = some w) :
    ((takeMaster st id).1 = some (m, w))
    ∧ ((takeMaster (takeMaster st id).2 id).1 = none)
    ∧ (∀ (m2 : M) (w2 : W),
        (takeMaster (returnMaster (takeMaster st id).2 id m2 w2) id).1 = some (m2, w2))
    ∧ (∀ id2, alistLookup st.instances id2 = none → (takeMaster st id2).1 = none) := by
  have htake := takeMaster_of_lookup st id e hfound
  set e2 : InstanceEntry M W := { e with master := none, writer := none } with he2
  have hlook2 : alistLookup (takeMaster st id).2.instances id = some e2 := by
    rw [htake]
    simp only
    rw [alistLookup_update_self, hfound]
    rfl
  refine ⟨?_, ?_, ?_, ?_⟩
  · rw [htake, hm, hw]
  · rw [takeMaster_of_lookup _ id e2 hlook2]
  · intro m2 w2
    set st2 := (takeMaster st id).2 with hst2
    set e3 : InstanceEntry M W := { e2 with master := some m2, writer := some w2 } with he3
    have hret : returnMaster st2 id m2 w2
        = { st2 with instances := alistUpdate st2.instances id e3 } := by
      unfold returnMaster
      rw [hlook2]
    have hlook3 : alistLookup (returnMaster st2 id m2 w2).instances id = some e3 := by
      rw [hret]
      simp only
      rw [alistLookup_update_self, hlook2]
      rfl
    rw [takeMaster_of_lookup _ id e3 hlook3]
  · intro id2 h2
    rw [takeMaster_of_none st id2 h2]

theorem take_return_master_protocol_witness :
    (((takeMaster sampleState "t#1").1 = some (11, 22))
    ∧ ((takeMaster (takeMaster sampleState "t#1").2 "t#1").1 = none)
    ∧ (∀ (m2 w2 : Nat),
        (takeMaster (returnMaster (takeMaster sampleState "t#1").2 "t#1" m2 w2) "t#1").1
          = some (m2, w2))
    ∧ (∀ id2, alistLookup sampleState.instances id2 = none
        → (takeMaster sampleState id2).1 = none)) :=
  take_return_master_protocol sampleState "t#1" sampleEntry 11 22 rfl rfl rfl

/-! ### C8: spawn failure registers nothing -/

/-- C8: if the pseudo-terminal cannot be allocated, the child cannot be
spawned, or the writer cannot be taken, `spawn_raw` propagates the error
and registers nothing: the whole manager state (instance table and
counters) after the failed spawn equals the state before it. -/
theorem spawn_failure_not_registered {E M W : Type} (st : ManagerState M W)
    (tid tname : String) (ptyRes : Except E M) (spawnRes : Except E (Option Nat))
    (writerRes : Except E W) (now : Nat)
    (hfail : (∃ e, ptyRes = Except.error e) ∨ (∃ e, spawnRes = Except.error e)
      ∨ (∃ e, writerRes = Except.error e)) :
    (spawnRaw st tid tname ptyRes spawnRes writerRes now).1 = st
    ∧ ∃ e, (spawnRaw st tid tname ptyRes spawnRes writerRes now).2 = Except.error e := by
  cases ptyRes with
  | error e => exact ⟨rfl, e, rfl⟩
  | ok master =>
    cases spawnRes with
    | error e => exact ⟨rfl, e, rfl⟩
    | ok pid =>
      cases writerRes with
      | error e => exact ⟨rfl, e, rfl⟩
      | ok writer =>
        rcases hfail with ⟨e, he⟩ | ⟨e, he⟩ | ⟨e, he⟩ <;> cases he

theorem spawn_failure_not_registered_witness :
    ((spawnRaw sampleState "t" "T" (Except.error "no pty")
        (Except.ok (some 9)) (Except.ok 7) 42 : ManagerState Nat Nat × _).1 = sampleState
    ∧ ∃ e, (spawnRaw sampleState "t" "T" (Except.error "no pty")
        (Except.ok (some 9)) (Except.ok 7) 42).2 = Except.error e) :=
  spawn_failure_not_registered sampleState "t" "T" (Except.error "no pty")
    (Except.ok (some 9)) (Except.ok 7) 42 (Or.inl ⟨"no pty", rfl⟩)

/-! ### C10: the both-or-neither handle invariant -/

theorem alistUpdate_all {κ α : Type} [DecidableEq κ] (p : κ × α → Bool) (l : List (κ × α))
    (k : κ) (v : α) (hl : l.all p = true) (hv : p (k, v) = true) :
    (alistUpdate l k v).all p = true := by
  induction l with
  | nil => simp [alistUpdate]
  | cons kv rest ih =>
    simp only [List.all_cons, Bool.and_eq_true] at hl
    by_cases h : kv.1 = k
    · simp [alistUpdate, h, hv, hl.2]
    · simp [alistUpdate, h, hl.1, ih hl.2]

theorem alistInsert_all {κ α : Type} [DecidableEq κ] (p : κ × α → Bool) (l : List (κ × α))
    (k : κ) (v : α) (hl : l.all p = true) (hv : p (k, v) = true) :
    (alistInsert l k v).all p = true := by
  unfold alistInsert
  split
  · exact alistUpdate_all p l k v hl hv
  · simp only [List.all_append, Bool.and_eq_true]
    exact ⟨hl, by simpa using hv⟩

/-- C10: in every reachable table state the master and writer slots of an
entry are populated together; registration during spawn, `takeMaster` and
`returnMaster` all preserve this invariant, and a `takeMaster` that does
not obtain the pair leaves every entry's handle occupancy unchanged. -/
theorem handle_pairing_invariant {M W : Type} (st : ManagerState M W)
    (hinv : handlesOk st = true) :
    (∀ (E : Type) (tid tname : String) (ptyRes : Except E M)
        (spawnRes : Except E (Option Nat)) (writerRes : Except E W) (now : Nat),
        handlesOk (spawnRaw st tid tname ptyRes spawnRes writerRes now).1 = true)
    ∧ (∀ id, handlesOk (takeMaster st id).2 = true)
    ∧ (∀ id m w, handlesOk (returnMaster st id m w) = true)
    ∧ (∀ id, (takeMaster st id).1 = none →
        ∀ id2, (alistLookup (takeMaster st id).2.instances id2).map
            (fun e => (e.master.isSome, e.writer.isSome))
          = (alistLookup st.instances id2).map
            (fun e => (e.master.isSome, e.writer.isSome))) := by
  refine ⟨?_, ?_, ?_, ?_⟩
  · intro E tid tname ptyRes spawnRes writerRes now
    cases ptyRes with
    | error e => exact hinv
    | ok m =>
      cases spawnRes with
      | error e => exact hinv
      | ok pid =>
        cases writerRes with
        | error e => exact hinv
        | ok w => exact alistInsert_all _ st.instances _ _ hinv rfl
  · intro id
    cases h : alistLookup st.instances id with
    | none => rw [takeMaster_of_none st id h]; exact hinv
    | some e =>
      rw [takeMaster_of_lookup st id e h]
      exact alistUpdate_all _ st.instances _ _ hinv rfl
  · intro id m w
    cases h : alistLookup st.instances id with
    | none =>
      have hr : returnMaster st id m w = st := by unfold returnMaster; rw [h]
      rw [hr]; exact hinv
    | some e =>
      have hr : returnMaster st id m w
          = { st with instances :=
              alistUpdate st.instances id ({ e with master := some m, writer := some w }) } := by
        unfold returnMaster; rw [h]
      rw [hr]
      exact alistUpdate_all _ st.instances _ _ hinv rfl
  · intro id hnone id2
    cases h : alistLookup st.instances id with
    | none => rw [takeMaster_of_none st id h]
    | some e =>
      have hmem : (id, e) ∈ st.instances := alistLookup_mem h
      have hpair : (e.master.isSome == e.writer.isSome) = true :=
        List.all_eq_true.mp hinv (id, e) hmem
      rw [takeMaster_of_lookup st id e h] at hnone
      have hboth : e.master = none ∧ e.writer = none := by
        cases hm : e.master with
        | some m =>
          cases hw : e.writer with
          | some w => rw [hm, hw] at hnone; cases hnone
          | none => rw [hm, hw] at hpair; cases hpair
        | none =>
          cases hw : e.writer with
          | some w => rw [hm, hw] at hpair; cases hpair
          | none => exact ⟨rfl, rfl⟩
      rw [takeMaster_of_lookup st id e h]
      by_cases hid : id2 = id
      · subst hid
        simp only
        rw [alistLookup_update_self, h]
        simp [hboth.1, hboth.2]
      · simp only
        rw [alistLookup_update_ne st.instances id id2 _ hid]

theorem handle_pairing_invariant_witness :
    ((∀ (E : Type) (tid tname : String) (ptyRes : Except E Nat)
        (spawnRes : Except E (Option Nat)) (writerRes : Except E Nat) (now : Nat),
        handlesOk (spawnRaw sampleState tid tname ptyRes spawnRes writerRes now).1 = true)
    ∧ (∀ id, handlesOk (takeMaster sampleState id).2 = true)
    ∧ (∀ id m w, handlesOk (returnMaster sampleState id m w) = true)
    ∧ (∀ id, (takeMaster sampleState id).1 = none →
        ∀ id2, (alistLookup (takeMaster sampleState id).2.instances id2).map
            (fun e => (e.master.isSome, e.writer.isSome))
          = (alistLookup sampleState.instances id2).map
            (fun e => (e.master.isSome, e.writer.isSome)))) :=
  handle_pairing_invariant sampleState rfl

/-! ### C9: the attach-client detach byte -/

theorem scanChunk_eq (c : List Nat) :
    scanChunk c = (c.takeWhile (fun b => b ≠ 2), c.contains 2) := by
  induction c with
  | nil => rfl
  | cons b rest ih =>
    by_cases h : b = 2
    · subst h; simp [scanChunk]
    · have h2 : ¬ 2 = b := fun hb => h hb.symm
      simp [scanChunk, h, h2, ih]

theorem takeWhile_append_all {α : Type} (p : α → Bool) (l1 l2 : List α) :
    (l1 ++ l2).takeWhile p
      = if l1.all p then l1 ++ l2.takeWhile p else l1.takeWhile p := by
  induction l1 with
  | nil => simp
  | cons a l ih =>
    by_cases h : p a
    · simp only [List.cons_append, List.takeWhile_cons, h, if_true, List.all_cons,
        Bool.true_and, ih]
      by_cases h2 : l.all p <;> simp [h2]
    · simp [List.takeWhile_cons, h]

theorem contains_two_eq (c : List Nat) :
    c.contains 2 = !c.all (fun b => b ≠ 2) := by
  induction c with
  | nil => rfl
  | cons b rest ih =>
    rw [List.contains_cons, List.all_cons, ih]
    by_cases h : b = 2
    · subst h; simp
    · have h2 : ¬ 2 = b := fun hb => h hb.symm
      simp [h, h2]

theorem relayInput_takeWhile (cs : List (List Nat)) (hne : ∀ c ∈ cs, c ≠ []) :
    relayInput cs = cs.flatten.takeWhile (fun b => b ≠ 2) := by
  induction cs with
  | nil => rfl
  | cons c rest ih =>
    have hc : ¬ c.isEmpty = true := by
      simpa using hne c (List.mem_cons_self c rest)
    rw [relayInput, if_neg hc, scanChunk_eq]
    simp only
    rw [List.flatten_cons, takeWhile_append_all]
    by_cases hcb : c.contains 2 = true
    · have hall : ¬ (c.all (fun b => b ≠ 2) = true) := by
        intro hab
        rw [contains_two_eq, hab] at hcb
        simp at hcb
      rw [if_pos hcb, if_neg hall]
    · have hall : c.all (fun b => b ≠ 2) = true := by
        cases hab : c.all (fun b => b ≠ 2)
        · exact absurd (by rw [contains_two_eq, hab]; rfl) hcb
        · rfl
      have htw : c.takeWhile (fun b => b ≠ 2) = c := by
        have h0 := takeWhile_append_all (fun b => b ≠ 2) c ([] : List Nat)
        rw [List.append_nil, List.takeWhile_nil, List.append_nil, if_pos hall] at h0
        exact h0
      rw [if_neg hcb, if_pos hall, htw,
        ih (fun d hd => hne d (List.mem_cons_of_mem c hd))]

theorem relayInput_stops (cs cs2 : List (List Nat)) (hne : ∀ c ∈ cs, c ≠ [])
    (h2 : 2 ∈ cs.flatten) :
    relayInput (cs ++ cs2) = relayInput cs := by
  induction cs with
  | nil => simp at h2
  | cons c rest ih =>
    have hc : ¬ c.isEmpty = true := by
      simpa using hne c (List.mem_cons_self c rest)
    rw [List.cons_append, relayInput, if_neg hc, scanChunk_eq]
    conv_rhs => rw [relayInput, if_neg hc, scanChunk_eq]
    simp only
    by_cases hcc : c.contains 2 = true
    · rw [if_pos hcc, if_pos hcc]
    · have hall : c.all (fun b => b ≠ 2) = true := by
        cases hab : c.all (fun b => b ≠ 2)
        · exact absurd (by rw [contains_two_eq, hab]; rfl) hcc
        · rfl
      have hnotin : 2 ∉ c := by
        intro hin
        have := List.all_eq_true.mp hall 2 hin
        simp at this
      have hrest : 2 ∈ rest.flatten := by
        rw [List.flatten_cons, List.mem_append] at h2
        exact h2.resolve_left hnotin
      rw [if_neg hcc, if_neg hcc,
        ih (fun d hd => hne d (List.mem_cons_of_mem c hd)) hrest]

/-- C9: for every sequence of non-empty keystroke chunks read from the
local terminal, the bytes the attach client forwards to the host are
exactly the bytes preceding the first `0x02` (STX) of the concatenated
input; `0x02` itself is never forwarded; and once a chunk containing
`0x02` has been read, no later chunk contributes anything (the client
stops relaying; its write side is shut down when the loop exits). -/
theorem attach_client_detach_filter (cs : List (List Nat)) (hne : ∀ c ∈ cs, c ≠ []) :
    relayInput cs = cs.flatten.takeWhile (fun b => b ≠ 2)
    ∧ (2 : Nat) ∉ relayInput cs
    ∧ (∀ cs2, 2 ∈ cs.flatten → relayInput (cs ++ cs2) = relayInput cs) := by
  refine ⟨relayInput_takeWhile cs hne, ?_, ?_⟩
  · rw [relayInput_takeWhile cs hne]
    intro hmem
    have := List.mem_takeWhile_imp hmem
    simp at this
  · intro cs2 h2
    exact relayInput_stops cs cs2 hne h2

theorem attach_client_detach_filter_witness :
    (relayInput [[1, 3], [4, 2, 5], [6]]
        = [[1, 3], [4, 2, 5], [6]].flatten.takeWhile (fun b => b ≠ 2)
    ∧ (2 : Nat) ∉ relayInput [[1, 3], [4, 2, 5], [6]]
    ∧ (∀ cs2, 2 ∈ [[1, 3], [4, 2, 5], [6]].flatten →
        relayInput ([[1, 3], [4, 2, 5], [6]] ++ cs2) = relayInput [[1, 3], [4, 2, 5], [6]])) :=
  attach_client_detach_filter [[1, 3], [4, 2, 5], [6]] (by decide)

/-! ### C5: moving a session to history and pruning -/

theorem pairwise_take_drop {α : Type} {R : α → α → Prop} {l : List α}
    (h : l.Pairwise R) (n : Nat) :
    ∀ a ∈ l.take n, ∀ b ∈ l.drop n, R a b := by
  have h2 : (l.take n ++ l.drop n).Pairwise R := by
    rw [List.take_append_drop]; exact h
  exact (List.pairwise_append.mp h2).2.2

/-- Behaviour of `pruneHistory`: the active tree is untouched, the
remaining history is a subset of the input, when the input exceeds the cap
exactly `maxEntries` sessions remain, and every deleted session started no
later than every surviving one. -/
theorem pruneHistory_result (active hist : List (Nat × Nat)) (N : Nat)
    (hnodup : (hist.map (fun kv => kv.1)).Nodup) :
    (pruneHistory { active := active, history := hist } N).active = active
    ∧ (∀ kv ∈ (pruneHistory { active := active, history := hist } N).history, kv ∈ hist)
    ∧ (N < hist.length →
        (pruneHistory { active := active, history := hist } N).history.length = N)
    ∧ (∀ kv ∈ (pruneHistory { active := active, history := hist } N).history,
        ∀ kv2 ∈ hist,
          kv2 ∉ (pruneHistory { active := active, history := hist } N).history →
            kv2.2 ≤ kv.2) := by
  have hlen : (listSessionsIn hist).length = hist.length := List.length_mergeSort hist
  by_cases hle : (listSessionsIn hist).length ≤ N
  · have hr : pruneHistory { active := active, history := hist } N
        = { active := active, history := hist } := by
      simp only [pruneHistory]
      rw [if_pos hle]
    rw [hr]
    refine ⟨rfl, fun kv hkv => hkv, ?_, ?_⟩
    · intro hlt; omega
    · intro kv hkv kv2 hkv2 hnot; exact absurd hkv2 hnot
  · have hr : pruneHistory { active := active, history := hist } N
        = { active := active,
            history := hist.filter (fun kv =>
              ¬ ((((listSessionsIn hist).mergeSort (fun a b => a.2 ≤ b.2)).take
                  ((listSessionsIn hist).length - N)).map (fun kv => kv.1)).contains kv.1) } := by
      simp only [pruneHistory]
      rw [if_neg hle]
    set sorted := (listSessionsIn hist).mergeSort (fun a b : Nat × Nat => a.2 ≤ b.2)
      with hsorted_def
    set ex := (listSessionsIn hist).length - N with hex
    set doomed := (sorted.take ex).map (fun kv => kv.1) with hdoomed
    set P : Nat × Nat → Bool := (fun kv => ¬ doomed.contains kv.1) with hPdef
    have hperm : sorted.Perm hist :=
      (List.mergeSort_perm _ _).trans (List.mergeSort_perm hist _)
    have hsort := @List.sorted_mergeSort (Nat × Nat) (fun a b => a.2 ≤ b.2)
      (by intro a b c hab hbc; simp at hab hbc ⊢; omega)
      (by intro a b; rcases Nat.le_total a.2 b.2 with hc | hc <;> simp [hc])
      (listSessionsIn hist)
    have hnodup_sorted : (sorted.map (fun kv : Nat × Nat => kv.1)).Nodup :=
      ((hperm.map (fun kv : Nat × Nat => kv.1)).nodup_iff).mpr hnodup
    have hdisj : ((sorted.take ex).map (fun kv : Nat × Nat => kv.1)).Disjoint
        ((sorted.drop ex).map (fun kv : Nat × Nat => kv.1)) := by
      have h2 : ((sorted.take ex).map (fun kv : Nat × Nat => kv.1)
          ++ (sorted.drop ex).map (fun kv : Nat × Nat => kv.1)).Nodup := by
        rw [← List.map_append, List.take_append_drop]
        exact hnodup_sorted
      exact (List.nodup_append.mp h2).2.2
    have hfiltake : (sorted.take ex).filter P = [] := by
      rw [List.filter_eq_nil_iff]
      intro kv hkv
      have hmem : kv.1 ∈ doomed := List.mem_map_of_mem (fun kv : Nat × Nat => kv.1) hkv
      simp [hPdef, List.elem_iff, hmem]
    have hfildrop : (sorted.drop ex).filter P = sorted.drop ex := by
      rw [List.filter_eq_self]
      intro kv hkv
      have hmem : kv.1 ∉ doomed := fun hmem =>
        hdisj hmem (List.mem_map_of_mem (fun kv : Nat × Nat => kv.1) hkv)
      simp [hPdef, List.elem_iff, hmem]
    have hfs : sorted.filter P = sorted.drop ex := by
      conv_lhs => rw [← List.take_append_drop ex sorted]
      rw [List.filter_append, hfiltake, hfildrop, List.nil_append]
    have hpf : (hist.filter P).Perm (sorted.drop ex) := by
      rw [← hfs]
      exact (hperm.filter P).symm
    rw [hr]
    refine ⟨rfl, ?_, ?_, ?_⟩
    · intro kv hkv
      exact (List.mem_filter.mp hkv).1
    · intro hlt
      have hl1 := hpf.length_eq
      rw [List.length_drop] at hl1
      have hl2 := hperm.length_eq
      simp only at hl1 hl2 ⊢
      omega
    · intro kv hkv kv2 hkv2 hnot
      have hkv_drop : kv ∈ sorted.drop ex := hpf.mem_iff.mp hkv
      have hkv2_sorted : kv2 ∈ sorted := hperm.mem_iff.mpr hkv2
      rw [← List.take_append_drop ex sorted, List.mem_append] at hkv2_sorted
      rcases hkv2_sorted with htake | hdrop
      · simpa using pairwise_take_drop hsort ex kv2 htake kv hkv_drop
      · exfalso
        apply hnot
        exact hpf.mem_iff.mpr hdrop

/-- C5: after `moveToHistory(id, N)` on a session present under the active
root, the session's directory is gone from the active tree, any stale
history entry with the same id has been replaced by the moved one, and if
the resulting history exceeds N entries exactly the oldest-by-start-time
entries are deleted so that exactly N remain (possibly including the moved
session itself). -/
theorem moveToHistory_spec (st : StoreState) (id t N : Nat)
    (hactive : alistLookup st.active id = some t)
    (hnodup : (st.history.map (fun kv => kv.1)).Nodup) :
    alistLookup (moveToHistory st id N).active id = none
    ∧ (∀ t2, (id, t2) ∈ (moveToHistory st id N).history → t2 = t)
    ∧ (N < (alistRemove st.history id ++ [(id, t)]).length →
        (moveToHistory st id N).history.length = N)
    ∧ (∀ kv ∈ (moveToHistory st id N).history,
        ∀ kv2 ∈ alistRemove st.history id ++ [(id, t)],
          kv2 ∉ (moveToHistory st id N).history → kv2.2 ≤ kv.2) := by
  have hmove : moveToHistory st id N
      = pruneHistory { active := alistRemove st.active id,
                       history := alistRemove st.history id ++ [(id, t)] } N := by
    unfold moveToHistory
    rw [hactive]
  have hnodup2 : ((alistRemove st.history id ++ [(id, t)]).map
      (fun kv : Nat × Nat => kv.1)).Nodup := by
    rw [List.map_append, List.nodup_append]
    refine ⟨((List.filter_sublist st.history).map _).nodup hnodup, by simp, ?_⟩
    intro a ha hb
    simp only [List.map_cons, List.map_nil, List.mem_singleton] at hb
    subst hb
    obtain ⟨kv, hkv, hfst⟩ := List.mem_map.mp ha
    have hne := (List.mem_filter.mp hkv).2
    simp only [decide_eq_true_eq] at hne
    exact hne hfst
  obtain ⟨h1, h2, h3, h4⟩ := pruneHistory_result (alistRemove st.active id)
    (alistRemove st.history id ++ [(id, t)]) N hnodup2
  rw [hmove]
  refine ⟨?_, ?_, h3, h4⟩
  · rw [h1]
    exact alistLookup_remove_self st.active id
  · intro t2 hmem
    have hin := h2 _ hmem
    rw [List.mem_append] at hin
    rcases hin with hin | hin
    · have hne := (List.mem_filter.mp hin).2
      simp at hne
    · have h5 : (id, t2) = (id, t) := List.mem_singleton.mp hin
      injection h5 with h6 h7

theorem moveToHistory_spec_witness :
    (alistLookup (moveToHistory ⟨[(1, 50)], [(2, 10), (3, 30), (4, 20)]⟩ 1 2).active 1 = none
    ∧ (∀ t2, (1, t2) ∈ (moveToHistory ⟨[(1, 50)], [(2, 10), (3, 30), (4, 20)]⟩ 1 2).history
        → t2 = 50)
    ∧ (2 < (alistRemove [(2, 10), (3, 30), (4, 20)] 1 ++ [(1, 50)]).length →
        (moveToHistory ⟨[(1, 50)], [(2, 10), (3, 30), (4, 20)]⟩ 1 2).history.length = 2)
    ∧ (∀ kv ∈ (moveToHistory ⟨[(1, 50)], [(2, 10), (3, 30), (4, 20)]⟩ 1 2).history,
        ∀ kv2 ∈ alistRemove [(2, 10), (3, 30), (4, 20)] 1 ++ [(1, 50)],
          kv2 ∉ (moveToHistory ⟨[(1, 50)], [(2, 10), (3, 30), (4, 20)]⟩ 1 2).history
            → kv2.2 ≤ kv.2)) :=
  moveToHistory_spec ⟨[(1, 50)], [(2, 10), (3, 30), (4, 20)]⟩ 1 50 2 rfl (by decide)
